import Mathlib

/-!
Verification of the GTM Copilot API service bootstrap (`src/api/app/main.py`).

The program reads the environment variable `ALLOWED_ORIGINS` (defaulting to
`"http://localhost:3000"`), splits it on commas, strips whitespace from each
piece, drops the pieces that are empty after stripping, installs the result
(or, when empty, the one-element default list) as the CORS allow-list, and
exposes a health handler returning the fixed JSON body with a single key
`status` mapped to `"ok"`.

Strings are modelled through their character lists; Python's string
operations (`str.split(",")`, `str.strip()`, truthiness of a string, `or`
fallback on a list) are embedded as executable Lean functions below.
-/

namespace GTMCopilot

/-- The whitespace characters removed by Python's `str.strip()` (the ASCII
whitespace set: space, tab, newline, carriage return, vertical tab, form
feed). -/
def isPySpace (c : Char) : Bool :=
  c = ' ' || c = '\t' || c = '\n' || c = '\r' || c = Char.ofNat 11 || c = Char.ofNat 12

/-- Remove leading whitespace characters: the left half of Python's
`str.strip()`. -/
def stripLeft (l : List Char) : List Char :=
  l.dropWhile isPySpace

/-- Python's `str.strip()` on a character list: remove leading and trailing
whitespace. -/
def stripChars (l : List Char) : List Char :=
  (stripLeft (stripLeft l).reverse).reverse

/-- Python's `str.strip()`. -/
def pyStrip (s : String) : String :=
  String.mk (stripChars s.data)

/-- Worker for `splitOnComma`: `acc` holds the characters of the current
piece, in reverse order. -/
def splitOnCommaAux (acc : List Char) : List Char → List (List Char)
  | [] => [acc.reverse]
  | c :: rest =>
      if c = ',' then acc.reverse :: splitOnCommaAux [] rest
      else splitOnCommaAux (c :: acc) rest

/-- Python's `s.split(",")` on a character list: split at every comma,
keeping empty pieces (the empty string yields one empty piece). -/
def splitOnComma (l : List Char) : List (List Char) :=
  splitOnCommaAux [] l

/-- The default origin, `"http://localhost:3000"`. -/
def defaultOrigin : String :=
  "http://localhost:3000"

/-- Line 7 of `main.py`:
`allowed = os.getenv("ALLOWED_ORIGINS", "http://localhost:3000")`.
`env` is the value of the environment variable, `none` when unset. -/
def allowedOf (env : Option String) : String :=
  env.getD defaultOrigin

/-- Line 8 of `main.py`:
`origins = [o.strip() for o in allowed.split(",") if o.strip()]`.
The guard `if o.strip()` keeps a piece exactly when its stripped form is a
non-empty (truthy) string. -/
def origins (env : Option String) : List String :=
  ((splitOnComma (allowedOf env).data).filter
    (fun o => !(stripChars o).isEmpty)).map (fun o => String.mk (stripChars o))

/-- Line 12 of `main.py`: `origins or ["http://localhost:3000"]` — Python's
`or` replaces an empty (falsy) list with the default one-element list. This
is the value passed to the middleware as `allow_origins`. -/
def allowOriginsArg (env : Option String) : List String :=
  if (origins env).isEmpty then [defaultOrigin] else origins env

/-- The configuration record handed to `CORSMiddleware` on lines 10-16 of
`main.py`. -/
structure CORSConfig where
  allow_origins : List String
  allow_credentials : Bool
  allow_methods : List String
  allow_headers : List String
  deriving DecidableEq

/-- Lines 10-16 of `main.py`: the middleware configuration built from the
environment value. -/
def corsConfig (env : Option String) : CORSConfig :=
  { allow_origins := allowOriginsArg env,
    allow_credentials := true,
    allow_methods := ["*"],
    allow_headers := ["*"] }

/-- Modelled from the spec: the hosting framework's CORS middleware layer
(not part of `src/`) permits an HTTP method when the configured method list
holds the wildcard `"*"` or the method itself; `["*"]` therefore permits all
methods. -/
def methodAllowed (c : CORSConfig) (m : String) : Bool :=
  c.allow_methods.contains ("*") || c.allow_methods.contains m

/-- Modelled from the spec: the hosting framework's CORS middleware layer
(not part of `src/`) permits a request header when the configured header
list holds the wildcard `"*"` or the header itself; `["*"]` therefore
permits all headers. -/
def headerAllowed (c : CORSConfig) (h : String) : Bool :=
  c.allow_headers.contains ("*") || c.allow_headers.contains h

/-- A JSON value, as far as this service produces one. -/
inductive Json where
  | str : String → Json
  | obj : List (String × Json) → Json

/-- An HTTP response: a status code and a JSON body. -/
structure Response where
  statusCode : Nat
  body : Json

/-- Lines 18-20 of `main.py`: the body returned by the health handler, a
JSON object with the single key `status` mapped to `"ok"`, serialized by the
framework with status code 200. -/
def healthResponse : Response :=
  { statusCode := 200, body := Json.obj [("status", Json.str ("ok"))] }

/-- The application state after startup: the installed CORS configuration.
Nothing else is mutable or readable by the handlers. -/
structure AppState where
  cors : CORSConfig

/-- Invoking the health handler against application state `st`: the handler
body is the constant `return` of the fixed JSON object — it reads no state
and mutates no state. -/
def invokeHealth (st : AppState) : Response × AppState :=
  (healthResponse, st)

/-- The allow-list exactly as the spec words it: take the environment string
(default `"http://localhost:3000"` when absent), split on `,`, strip each
piece, drop the empty pieces, and if the resulting sequence is empty replace
it with the single-element sequence holding the default origin. -/
def specBuildAllowList (env : Option String) : List String :=
  let s := env.getD ("http://localhost:3000")
  let pieces := (splitOnComma s.data).map (fun o => String.mk (stripChars o))
  let kept := pieces.filter (fun p => p != "")
  if kept = [] then ["http://localhost:3000"] else kept

/-- An allow-list entry is clean when it holds no comma and neither starts
nor ends with a whitespace character. -/
def cleanEntry (s : String) : Bool :=
  s.data.all (fun c => c != ',') &&
  (s.data.head?).all (fun c => !isPySpace c) &&
  (s.data.getLast?).all (fun c => !isPySpace c)

/-! Helper lemmas. -/

lemma mk_bne_empty (l : List Char) : (String.mk l != "") = !l.isEmpty := by
  cases l <;> rfl

lemma splitOnCommaAux_mem (P : Char → Prop) :
    ∀ (l acc : List Char), (∀ c ∈ acc, P c) → (∀ c ∈ l, c = ',' ∨ P c) →
      ∀ piece ∈ splitOnCommaAux acc l, ∀ c ∈ piece, P c := by
  intro l
  induction l with
  | nil =>
    intro acc hacc _ piece hpiece c hc
    simp only [splitOnCommaAux, List.mem_singleton] at hpiece
    subst hpiece
    exact hacc c (List.mem_reverse.mp hc)
  | cons a rest ih =>
    intro acc hacc hl piece hpiece c hc
    by_cases ha : a = ','
    · simp only [splitOnCommaAux, ha, if_true, List.mem_cons] at hpiece
      rcases hpiece with h1 | h2
      · subst h1
        exact hacc c (List.mem_reverse.mp hc)
      · exact ih [] (by simp) (fun d hd => hl d (List.mem_cons_of_mem a hd)) piece h2 c hc
    · simp only [splitOnCommaAux, ha, if_false] at hpiece
      refine ih (a :: acc) ?_ (fun d hd => hl d (List.mem_cons_of_mem a hd)) piece hpiece c hc
      intro d hd
      rcases List.mem_cons.mp hd with h1 | h2
      · rcases hl a (List.mem_cons_self a rest) with h | h
        · exact absurd h ha
        · rw [h1]
          exact h
      · exact hacc d h2

lemma mem_splitOnComma_ne_comma (l : List Char) :
    ∀ piece ∈ splitOnComma l, ∀ c ∈ piece, c ≠ ',' :=
  splitOnCommaAux_mem (fun c => c ≠ ',') l [] (by simp)
    (fun c _ => em (c = ','))

lemma mem_splitOnComma_space (l : List Char)
    (h : ∀ c ∈ l, c = ',' ∨ isPySpace c) :
    ∀ piece ∈ splitOnComma l, ∀ c ∈ piece, isPySpace c :=
  splitOnCommaAux_mem (fun c => isPySpace c = true) l [] (by simp) h

lemma stripChars_eq_nil (l : List Char) (h : ∀ c ∈ l, isPySpace c) :
    stripChars l = [] := by
  have h1 : stripLeft l = [] := List.dropWhile_eq_nil_iff.mpr h
  simp only [stripChars, h1, List.reverse_nil]
  rfl

lemma mem_stripChars (l : List Char) : ∀ c ∈ stripChars l, c ∈ l := by
  intro c hc
  simp only [stripChars, stripLeft, List.mem_reverse] at hc
  have h1 : c ∈ (List.dropWhile isPySpace l).reverse :=
    (List.dropWhile_suffix isPySpace).subset hc
  rw [List.mem_reverse] at h1
  exact (List.dropWhile_suffix isPySpace).subset h1

lemma dropWhile_head?_false {α : Type} (p : α → Bool) (l : List α) :
    ∀ a, (l.dropWhile p).head? = some a → p a = false := by
  induction l with
  | nil =>
    intro a h
    simp [List.dropWhile] at h
  | cons x xs ih =>
    intro a h
    rw [List.dropWhile_cons] at h
    by_cases hx : p x
    · rw [if_pos hx] at h
      exact ih a h
    · rw [if_neg hx] at h
      simp only [List.head?_cons, Option.some.injEq] at h
      subst h
      exact Bool.not_eq_true _ |>.mp hx

lemma dropWhile_getLast?_some {α : Type} (p : α → Bool) (l : List α) :
    ∀ a, (l.dropWhile p).getLast? = some a → l.getLast? = some a := by
  intro a h
  obtain ⟨t, ht⟩ := List.dropWhile_suffix (l := l) p
  rw [← ht, List.getLast?_append, h]
  rfl

lemma stripChars_head?_false (l : List Char) :
    ∀ c, (stripChars l).head? = some c → isPySpace c = false := by
  intro c h
  simp only [stripChars, stripLeft, List.head?_reverse] at h
  have h2 := dropWhile_getLast?_some isPySpace (List.dropWhile isPySpace l).reverse c h
  rw [List.getLast?_reverse] at h2
  exact dropWhile_head?_false isPySpace l c h2

lemma stripChars_getLast?_false (l : List Char) :
    ∀ c, (stripChars l).getLast? = some c → isPySpace c = false := by
  intro c h
  simp only [stripChars, stripLeft, List.getLast?_reverse] at h
  exact dropWhile_head?_false isPySpace (List.dropWhile isPySpace l).reverse c h

lemma filter_strip_comm (L : List (List Char)) :
    (L.filter (fun o => !(stripChars o).isEmpty)).map (fun o => String.mk (stripChars o)) =
    (L.map (fun o => String.mk (stripChars o))).filter (fun p => p != "") := by
  induction L with
  | nil => rfl
  | cons a t ih =>
    simp only [List.filter_cons, List.map_cons, mk_bne_empty]
    cases h : (stripChars a).isEmpty <;> simp [h, ih]

lemma origins_eq_map_filter (env : Option String) :
    origins env =
      ((splitOnComma (allowedOf env).data).map
        (fun o => String.mk (stripChars o))).filter (fun p => p != "") := by
  simp only [origins]
  exact filter_strip_comm _

/-! Claim theorems. -/

/-- C1: the health operation, for every invocation, returns success
(HTTP 200) with a JSON object having exactly one key, `status`, mapped to
the literal string `"ok"`; the handler is a pure constant, so it has no
side effects and no failure modes. -/
theorem health_returns_ok :
    healthResponse.statusCode = 200 ∧
    healthResponse.body = Json.obj [("status", Json.str ("ok"))] ∧
    ∀ st : AppState, invokeHealth st = (healthResponse, st) :=
  ⟨rfl, rfl, fun _ => rfl⟩

/-- C2: for every value of the environment string (including absence), the
allow-list the program derives equals the allow-list described by the spec:
split on `,`, strip each piece, drop empty pieces, and fall back to the
one-element default sequence when nothing remains. -/
theorem allowList_matches_spec (env : Option String) :
    allowOriginsArg env = specBuildAllowList env := by
  have hk : ((splitOnComma (env.getD ("http://localhost:3000")).data).map
      (fun o => String.mk (stripChars o))).filter (fun p => p != "") = origins env :=
    (origins_eq_map_filter env).symm
  simp only [specBuildAllowList]
  rw [hk, allowOriginsArg]
  by_cases h : origins env = []
  · simp [h, defaultOrigin]
  · simp [h, List.isEmpty_iff, defaultOrigin]

/-- C3: if the environment variable is unset, is the empty string, or holds
only commas and whitespace, the derived allow-list is exactly the
one-element default list. -/
theorem allowList_default_fallback (env : Option String)
    (h : env = none ∨ env = some ("") ∨
      ∃ s, env = some s ∧ ∀ c ∈ s.data, c = ',' ∨ isPySpace c) :
    allowOriginsArg env = [defaultOrigin] := by
  rcases h with h | h | ⟨s, rfl, hs⟩
  · subst h
    decide
  · subst h
    decide
  · have hor : origins (some s) = [] := by
      simp only [origins, allowedOf, Option.getD_some]
      rw [List.filter_eq_nil_iff.mpr ?_]
      · rfl
      · intro o ho
        rw [stripChars_eq_nil o (mem_splitOnComma_space s.data hs o ho)]
        simp
    simp [allowOriginsArg, hor]

/-- Witness for C3 at the concrete all-commas-and-whitespace value `", ,"`. -/
theorem allowList_default_fallback_at_commas :
    allowOriginsArg (some (", ,")) = [defaultOrigin] :=
  allowList_default_fallback (some (", ,"))
    (Or.inr (Or.inr ⟨", ,", rfl, by decide⟩))

/-- C4: the cross-origin configuration uses exactly the derived allow-list
as permitted origins, permits credentials, and (through the framework's
wildcard) permits every HTTP method and every request header. -/
theorem cors_policy_config (env : Option String) (m h : String) :
    (corsConfig env).allow_origins = allowOriginsArg env ∧
    (corsConfig env).allow_credentials = true ∧
    methodAllowed (corsConfig env) m = true ∧
    headerAllowed (corsConfig env) h = true := by
  refine ⟨rfl, rfl, ?_, ?_⟩ <;> simp [methodAllowed, headerAllowed, corsConfig]

/-- C5: for every input environment string, the allow-list holds no
empty-string entry, and the derived sequence is exactly the in-order filter
of the stripped pieces of the input — so relative order and duplicates of
the non-empty stripped entries are preserved, with no deduplication. -/
theorem allowList_entries_order (env : Option String) :
    (allowOriginsArg env).all (fun s => s != "") = true ∧
    origins env =
      ((splitOnComma (allowedOf env).data).map
        (fun o => String.mk (stripChars o))).filter (fun p => p != "") := by
  refine ⟨?_, origins_eq_map_filter env⟩
  rw [List.all_eq_true]
  intro s hs
  rw [allowOriginsArg] at hs
  by_cases he : (origins env).isEmpty
  · rw [if_pos he] at hs
    have hd : s = defaultOrigin := by simpa using hs
    subst hd
    decide
  · rw [if_neg he, origins_eq_map_filter] at hs
    exact (List.mem_filter.mp hs).2

/-- C6: on the concrete input `"https://a.com, https://b.com"` the derived
allow-list is exactly the two stripped origins, in order. -/
theorem allowList_concrete_example :
    allowOriginsArg (some ("https://a.com, https://b.com")) =
      ["https://a.com", "https://b.com"] := by
  decide

/-- C7: the health operation is deterministic and idempotent — any two
invocations, from any application states, return the same response, and no
invocation changes the state. -/
theorem health_idempotent (s t : AppState) :
    (invokeHealth s).1 = (invokeHealth t).1 ∧ (invokeHealth s).2 = s :=
  ⟨rfl, rfl⟩

/-- Witness for C7 at a concrete application state. -/
theorem health_idempotent_at_default :
    (invokeHealth ⟨corsConfig none⟩).1 = (invokeHealth ⟨corsConfig (some (""))⟩).1 ∧
    (invokeHealth ⟨corsConfig none⟩).2 = ⟨corsConfig none⟩ :=
  health_idempotent ⟨corsConfig none⟩ ⟨corsConfig (some (""))⟩

/-- C8: for every value of the environment string (including absence), the
list passed to the cross-origin policy as permitted origins is non-empty. -/
theorem allowList_nonempty (env : Option String) :
    1 ≤ ((corsConfig env).allow_origins).length := by
  show 1 ≤ (allowOriginsArg env).length
  rw [allowOriginsArg]
  by_cases he : (origins env).isEmpty
  · simp [he]
  · rw [if_neg he]
    have hne : origins env ≠ [] := by
      simpa [List.isEmpty_iff] using he
    exact List.length_pos.mpr hne

/-- C9: leaving the variable unset and setting it to the empty string give
identical allow-lists — the unset case yields the default through the
`getenv` fallback (the derived sequence is already the default and
non-empty), while the empty case yields an empty derived sequence and takes
the empty-sequence fallback to the same list. -/
theorem unset_matches_empty :
    origins none = [defaultOrigin] ∧
    origins (some ("")) = [] ∧
    allowOriginsArg none = allowOriginsArg (some ("")) := by
  decide

/-- C10: for every input environment string, every entry of the derived
allow-list holds no comma character and neither starts nor ends with a
whitespace character. -/
theorem allowList_entries_clean (env : Option String) :
    (allowOriginsArg env).all cleanEntry = true := by
  rw [List.all_eq_true]
  intro s hs
  rw [allowOriginsArg] at hs
  by_cases he : (origins env).isEmpty
  · rw [if_pos he] at hs
    have hd : s = defaultOrigin := by simpa using hs
    subst hd
    decide
  · rw [if_neg he] at hs
    simp only [origins] at hs
    rcases List.mem_map.mp hs with ⟨o, ho, rfl⟩
    have hof : o ∈ splitOnComma (allowedOf env).data := (List.mem_filter.mp ho).1
    show ((stripChars o).all (fun c => c != ',') &&
      ((stripChars o).head?).all (fun c => !isPySpace c) &&
      ((stripChars o).getLast?).all (fun c => !isPySpace c)) = true
    simp only [Bool.and_eq_true]
    refine ⟨⟨?_, ?_⟩, ?_⟩
    · rw [List.all_eq_true]
      intro c hc
      exact bne_iff_ne.mpr
        (mem_splitOnComma_ne_comma (allowedOf env).data o hof c (mem_stripChars o c hc))
    · cases hh : (stripChars o).head? with
      | none => rfl
      | some c =>
        rw [Option.all_some, stripChars_head?_false o c hh]
        rfl
    · cases hh : (stripChars o).getLast? with
      | none => rfl
      | some c =>
        rw [Option.all_some, stripChars_getLast?_false o c hh]
        rfl

end GTMCopilot
